import Mathlib

/-!
A shallow embedding, in Lean 4, of the decision logic of the hypetest2
market-making bot, together with theorems settling the spec's claims
about it.

Sources embedded here:
* `src/src/bot/core/security.ts`  — `SecurityManager` (audit log, multi-sig)
* `src/src/bot/core/analytics.ts` — `PerformanceAnalytics.updateWinLossStatistics`
* `src/unnamed/part_006`          — `RiskManager` (trailing stop, circuit-breaker volatility)
* `src/unnamed/part_007`          — `MarketMaker` (pricing, sizing, layering, volatility)

Modelling conventions:
* JavaScript numbers are modelled as exact rationals (`ℚ`); the two
  volatility routines, which take a real square root, are embedded as the
  exact rational radicand, with `Real.sqrt` applied in the theorems.
* `Math.floor(x / inc) * inc` and `Math.ceil(x / inc) * inc` are modelled
  with `Int.floor` / `Int.ceil`.
* `x.toFixed(2)` followed by `parseFloat` is modelled as rounding to the
  nearest multiple of `1/100` (half up).
* `crypto.createHash("sha256")....digest("hex")` is modelled by an abstract
  injective stand-in `sha256Hex`; no claim below depends on any property of
  SHA-256 beyond determinism.
* JavaScript `Map` objects keyed by strings are modelled as association
  lists with `mapGet` / `mapSet` (insert-or-replace) semantics.
* `throw` in synchronous code is modelled with `Except String`.
-/

namespace Bot

/-- `Math.floor (x / inc) * inc`: round `x` down to a multiple of `inc`. -/
def floorToIncrement (inc x : ℚ) : ℚ := (⌊x / inc⌋ : ℤ) * inc

/-- `Math.ceil (x / inc) * inc`: round `x` up to a multiple of `inc`. -/
def ceilToIncrement (inc x : ℚ) : ℚ := (⌈x / inc⌉ : ℤ) * inc

/-- `parseFloat(x.toFixed(2))`: round `x` to the nearest multiple of `1/100`
(ties rounded up), as used for stop-loss and take-profit prices. -/
def toFixed2 (x : ℚ) : ℚ := (⌊x * 100 + 1/2⌋ : ℤ) / 100

end Bot

namespace Security

/-- The `details` payload of an audit entry.  In the source `details` is an
arbitrary JSON object; the only field the verification routine ever reads
from it is `previousHash`, so the model keeps that field (absent, `none`,
for every object the call sites actually pass) next to an opaque payload. -/
structure AuditDetails where
  payload : String
  previousHash : Option String
deriving DecidableEq

instance : Inhabited AuditDetails := ⟨⟨"", none⟩⟩

/-- One entry of `SecurityManager.auditLog`. -/
structure AuditEntry where
  timestamp : Nat
  action : String
  details : AuditDetails
  hash : String
deriving DecidableEq

instance : Inhabited AuditEntry := ⟨⟨0, "", default, ""⟩⟩

/-- The 64-zero hash used for the first entry of the chain. -/
def zeroHash : String :=
  "0000000000000000000000000000000000000000000000000000000000000000"

/-- Injective stand-in for `JSON.stringify` of the object
`\x7b timestamp, action, details, previousHash \x7d` hashed by `logToAudit`. -/
def auditDataString (timestamp : Nat) (action : String) (details : AuditDetails)
    (previousHash : String) : String :=
  toString timestamp ++ "|" ++ action ++ "|" ++ details.payload ++ "|" ++
    (match details.previousHash with
     | none => ""
     | some h => "previousHash:" ++ h) ++ "|" ++ previousHash

/-- Stand-in for `crypto.createHash("sha256").update(s).digest("hex")`:
deterministic and injective, never equal to `zeroHash`. -/
def sha256Hex (s : String) : String := "sha256:" ++ s

/-- `SecurityManager.logToAudit` (security.ts:756-791): append an entry whose
hash covers its fields plus the previous entry's hash; cap the log at 10000
entries. -/
def logToAudit (log : List AuditEntry) (action : String) (details : AuditDetails)
    (timestamp : Nat) : List AuditEntry :=
  let previousHash :=
    match log.getLast? with
    | some e => e.hash
    | none => zeroHash
  let hash := sha256Hex (auditDataString timestamp action details previousHash)
  let log1 := log ++ [⟨timestamp, action, details, hash⟩]
  if log1.length > 10000 then log1.drop 1 else log1

/-- `SecurityManager.verifyAuditLog` (security.ts:797-832): for each index
`i ≥ 1`, compare `log[i].details.previousHash` against `log[i-1].hash`, then
recompute the hash of `log[i-1]` from its fields and the hash of `log[i-2]`
(or the zero hash). -/
def verifyAuditLog (log : List AuditEntry) : Bool :=
  (List.range log.length).all fun i =>
    if i = 0 then
      true
    else
      let currentEntry := log.getD i default
      let previousEntry := log.getD (i - 1) default
      if currentEntry.details.previousHash ≠ some previousEntry.hash then
        false
      else
        let prevPrevHash := if i > 1 then (log.getD (i - 2) default).hash else zeroHash
        let calculatedHash := sha256Hex
          (auditDataString previousEntry.timestamp previousEntry.action
            previousEntry.details prevPrevHash)
        decide (calculatedHash = previousEntry.hash)

end Security

namespace Security

/-- Insert-or-replace on an association list, matching `Map.prototype.set`:
an existing key keeps its place and gets the new value, a new key is
appended. -/
def mapSet {α : Type} (m : List (String × α)) (k : String) (v : α) :
    List (String × α) :=
  if m.any (fun p => p.1 = k) then
    m.map (fun p => if p.1 = k then (k, v) else p)
  else
    m ++ [(k, v)]

/-- Lookup on an association list, matching `Map.prototype.get`. -/
def mapGet {α : Type} (m : List (String × α)) (k : String) : Option α :=
  (m.find? (fun p => p.1 = k)).map (fun p => p.2)

/-- Security level of a transaction tier (`"low" | "medium" | "high"`). -/
inductive SecurityLevel
  | low
  | medium
  | high
deriving DecidableEq

/-- Status of a pending transaction. -/
inductive TxStatus
  | pending
  | approved
  | rejected
  | executed
  | expired
deriving DecidableEq

/-- One value tier of `SecurityConfig.transactionLimits`. -/
structure TierLimit where
  maxAmount : ℚ
  securityLevel : SecurityLevel

/-- `SecurityConfig.multiSig`. -/
structure MultiSigConfig where
  enable : Bool
  requiredSignatures : Nat
  authorizedAddresses : List String

/-- The slice of `SecurityConfig` the embedded operations read. -/
structure SecurityConfig where
  multiSig : MultiSigConfig
  tier1 : TierLimit
  tier2 : TierLimit
  tier3 : TierLimit

/-- An entry of `SecurityManager.pendingTransactions`.  `signatures` is a
`Map` from signer address to signature string. -/
structure PendingTransaction where
  id : String
  txType : String
  data : String
  value : ℚ
  timestamp : Nat
  signatures : List (String × String)
  status : TxStatus

/-- An entry of `SecurityManager.transactionHistory`. -/
structure HistoryEntry where
  id : String
  txType : String
  value : ℚ
  timestamp : Nat
  status : String
  securityLevel : SecurityLevel

/-- The mutable state of `SecurityManager` touched by the transaction flow. -/
structure SecurityState where
  pendingTransactions : List (String × PendingTransaction)
  transactionHistory : List HistoryEntry
  auditLog : List AuditEntry

/-- `SecurityManager.getSecurityLevel` (security.ts:570-578). -/
def getSecurityLevel (cfg : SecurityConfig) (value : ℚ) : SecurityLevel :=
  if value ≤ cfg.tier1.maxAmount then cfg.tier1.securityLevel
  else if value ≤ cfg.tier2.maxAmount then cfg.tier2.securityLevel
  else cfg.tier3.securityLevel

/-- `SecurityManager.executeTransaction` (security.ts:653-749), success path:
mark the pending transaction (if any) executed, log to the audit trail and
append to the bounded history.  The body's only failure source is event
emission, not modelled. -/
def executeTransaction (cfg : SecurityConfig) (st : SecurityState)
    (id txType data : String) (value : ℚ) (now : Nat) : SecurityState :=
  let pending :=
    match mapGet st.pendingTransactions id with
    | some tx => mapSet st.pendingTransactions id { tx with status := .executed }
    | none => st.pendingTransactions
  let audit := logToAudit st.auditLog "transaction_executed"
    ⟨"transactionId:" ++ id ++ ",type:" ++ txType ++ ",data:" ++ data, none⟩ now
  let history := st.transactionHistory ++
    [⟨id, txType, value, now, "executed", getSecurityLevel cfg value⟩]
  let history := if history.length > 1000 then history.drop 1 else history
  { pendingTransactions := pending, transactionHistory := history, auditLog := audit }

/-- The signature generated by `signTransaction` (security.ts:606-609):
sha256 of `transactionId:signerAddress:Date.now()`. -/
def signatureFor (transactionId signerAddress : String) (now : Nat) : String :=
  sha256Hex (transactionId ++ ":" ++ signerAddress ++ ":" ++ toString now)

/-- `SecurityManager.signTransaction` (security.ts:586-643).  Returns the
updated state and the `isReady` flag, or the thrown error message.  `now`
stands for `Date.now()`. -/
def signTransaction (cfg : SecurityConfig) (walletAddress : String)
    (st : SecurityState) (transactionId signerAddress : String) (now : Nat) :
    Except String (SecurityState × Bool) :=
  match mapGet st.pendingTransactions transactionId with
  | none => .error ("Transaction " ++ transactionId ++ " not found or not pending")
  | some transaction =>
    if transaction.status ≠ .pending then
      .error ("Transaction " ++ transactionId ++ " not found or not pending")
    else if ¬ (signerAddress ∈ cfg.multiSig.authorizedAddresses ∨
        signerAddress = walletAddress) then
      .error ("Signer " ++ signerAddress ++ " not authorized")
    else
      let signature := signatureFor transactionId signerAddress now
      let signatures := mapSet transaction.signatures signerAddress signature
      let st1 : SecurityState :=
        { st with
          pendingTransactions := mapSet st.pendingTransactions transactionId
            { transaction with signatures := signatures },
          auditLog := logToAudit st.auditLog "transaction_signed"
            ⟨"transactionId:" ++ transactionId ++ ",signer:" ++ signerAddress, none⟩
            now }
      let isReady := signatures.length ≥ cfg.multiSig.requiredSignatures
      if isReady then
        let st2 : SecurityState :=
          { st1 with
            pendingTransactions := mapSet st1.pendingTransactions transactionId
              { transaction with signatures := signatures, status := .approved } }
        .ok (executeTransaction cfg st2 transactionId transaction.txType
          transaction.data transaction.value now, true)
      else
        .ok (st1, false)

/-- The `transaction_created` audit append at the top of
`secureTransaction` (security.ts:520-525). -/
def auditCreated (st : SecurityState) (id txType : String) (now : Nat) :
    SecurityState :=
  { st with
    auditLog := logToAudit st.auditLog "transaction_created"
      ⟨"transactionId:" ++ id ++ ",type:" ++ txType, none⟩ now }

/-- The registration of a fresh pending transaction with an empty signature
map by `secureTransaction` (security.ts:535-543). -/
def pendingInsert (st : SecurityState) (id txType data : String) (value : ℚ)
    (now : Nat) : SecurityState :=
  { st with
    pendingTransactions := mapSet st.pendingTransactions id
      ⟨id, txType, data, value, now, [], .pending⟩ }

/-- `SecurityManager.secureTransaction` (security.ts:506-563) for the
multi-signature path.  `id` stands for `crypto.randomUUID()` and `now` for
`Date.now()`.  Low-tier transactions, and medium/high ones with multi-sig
disabled, execute immediately; otherwise the transaction is registered
pending and auto-signed once by the bot's wallet address (a call that
cannot throw: the fresh transaction is pending and the bot is authorized,
so the fallback arm is unreachable). -/
def secureTransaction (cfg : SecurityConfig) (walletAddress : String)
    (st : SecurityState) (id txType data : String) (value : ℚ) (now : Nat) :
    SecurityState :=
  let securityLevel := getSecurityLevel cfg value
  if securityLevel = .low then
    executeTransaction cfg (auditCreated st id txType now) id txType data value now
  else if cfg.multiSig.enable then
    match signTransaction cfg walletAddress
        (pendingInsert (auditCreated st id txType now) id txType data value now)
        id walletAddress now with
    | .ok (st2, _) => st2
    | .error _ => pendingInsert (auditCreated st id txType now) id txType data value now
  else
    executeTransaction cfg (auditCreated st id txType now) id txType data value now

end Security

namespace RiskManager

/-- `RiskManager.setupStopLoss` (part_006:396-433), price computation only:
the stop price placed when a position opens, rounded with `toFixed(2)`. -/
def setupStopLossPrice (stopLossPercentage : ℚ) (positionSize entryPrice : ℚ) : ℚ :=
  let pct := stopLossPercentage / 100
  let isLong := positionSize > 0
  let stopPrice := if isLong then entryPrice * (1 - pct) else entryPrice * (1 + pct)
  Bot.toFixed2 stopPrice

/-- `RiskManager.updateTrailingStopLossForPosition` (part_006:581-646):
given the tracked stop order's price and the current market price, return
the stop order's price after the tick and whether it was replaced.  The
candidate stop trails the current price by `trailingPercentage`; a long
position replaces its stop only when the candidate is strictly higher, a
short only when it is strictly lower; the replacement price is rounded with
`toFixed(2)`. -/
def updateTrailingStopLossForPosition (trailingPercentage : ℚ)
    (positionSize stopOrderPrice currentPrice : ℚ) : ℚ × Bool :=
  let pct := trailingPercentage / 100
  let isLong := positionSize > 0
  let trailingDistance := currentPrice * pct
  if isLong then
    let newStopPrice := currentPrice - trailingDistance
    if newStopPrice > stopOrderPrice then (Bot.toFixed2 newStopPrice, true)
    else (stopOrderPrice, false)
  else
    let newStopPrice := currentPrice + trailingDistance
    if newStopPrice < stopOrderPrice then (Bot.toFixed2 newStopPrice, true)
    else (stopOrderPrice, false)

/-- The stop price after a whole sequence of market ticks, each handled by
`updateTrailingStopLossForPosition`. -/
def trailStopOverTicks (trailingPercentage positionSize : ℚ) (stopOrderPrice : ℚ)
    (prices : List ℚ) : ℚ :=
  prices.foldl
    (fun s p => (updateTrailingStopLossForPosition trailingPercentage positionSize s p).1)
    stopOrderPrice

end RiskManager

namespace Volatility

/-!
Both volatility routines return `stdDev * annualizationFactor * 100` where
`stdDev = √variance` and `annualizationFactor` is itself a square root, so
each returned value equals `√(variance * factorSquared * 10000)`.  Real
square roots have no executable code in Lean, so the embedding computes
that radicand exactly over `ℚ` (`...VolatilitySq` below); the theorems
speak about `Real.sqrt` of it, which is the number the source returns.
-/

/-- Per-tick returns of a price series: `(p_i − p_(i−1)) / p_(i−1)`,
shared verbatim between part_006:748-754 and part_007:595-601. -/
def tickReturns (prices : List ℚ) : List ℚ :=
  (prices.zip prices.tail).map (fun q => (q.2 - q.1) / q.1)

/-- Mean of a list of rationals (0 on the empty list; the sources' guards
keep the list nonempty). -/
def listMean (l : List ℚ) : ℚ := l.sum / l.length

/-- Population variance of a list of rationals, as computed by both
volatility routines. -/
def listVariance (l : List ℚ) : ℚ :=
  ((l.map (fun v => (v - listMean l) ^ 2)).sum) / l.length

end Volatility

namespace RiskManager

/-- Square of `RiskManager.calculateCircuitBreakerVolatility`
(part_006:741-771).  The source returns
`√variance * √(secondsInYear / (n − 1)) * 100` over the stored price
history of `(timestamp, price)` points (it assumes points are about one
second apart); this definition is the exact radicand, so the returned
volatility is `Real.sqrt` of it. -/
def calculateCircuitBreakerVolatilitySq (priceHistory : List (Nat × ℚ)) : ℚ :=
  if priceHistory.length < 2 then 0
  else
    let returns := Volatility.tickReturns (priceHistory.map (fun q => q.2))
    let secondsInYear : ℚ := 365 * 24 * 60 * 60
    Volatility.listVariance returns * (secondsInYear / (priceHistory.length - 1 : ℕ)) *
      10000

end RiskManager

namespace MarketMaker

/-- Order side, the `"buy" | "sell"` union of the source. -/
inductive OrderSide
  | buy
  | sell
deriving DecidableEq

/-- `MarketMakingConfig.orders.layering`. -/
structure LayeringConfig where
  enable : Bool
  levels : Nat
  spreadMultiplier : ℚ
  sizeMultiplier : ℚ

/-- `MarketMakingConfig.orders`. -/
structure OrdersConfig where
  minOrderSize : ℚ
  maxOrderSize : ℚ
  orderSizeIncrement : ℚ
  priceIncrement : ℚ
  layering : LayeringConfig

/-- `MarketMakingConfig.spread.orderBookImbalanceAdjustment`. -/
structure ImbalanceAdjustmentConfig where
  enable : Bool
  threshold : ℚ
  adjustmentFactor : ℚ

/-- `MarketMakingConfig.spread.baseTiers`. -/
structure SpreadTiers where
  tier1 : ℚ
  tier2 : ℚ
  tier3 : ℚ

/-- `MarketMakingConfig.spread.volatilityAdjustment.thresholds`. -/
structure VolatilityThresholds where
  medium : ℚ
  high : ℚ

/-- The slice of `MarketMakingConfig.spread` the pricing logic reads. -/
structure SpreadConfig where
  baseTiers : SpreadTiers
  thresholds : VolatilityThresholds
  orderBookImbalanceAdjustment : ImbalanceAdjustmentConfig

/-- `MarketMakingConfig.inventory`. -/
structure InventoryConfig where
  targetRatio : ℚ
  maxImbalance : ℚ
  rebalanceStrategy : String

/-- An order book snapshot: bid and ask levels as `(price, size)` pairs. -/
structure OrderBook where
  bids : List (ℚ × ℚ)
  asks : List (ℚ × ℚ)

/-- The per-symbol `volatilityMetrics` entry. -/
structure VolatilityMetrics where
  short : ℚ
  medium : ℚ
  long : ℚ

/-- The slice of `MarketData` the sizing logic reads. -/
structure MarketData where
  volume24h : ℚ

/-- An order submission handed to `placeLimitOrder`. -/
structure Submission where
  side : OrderSide
  price : ℚ
  size : ℚ

/-- `MarketMaker.calculateImbalanceAdjustment` (part_007:453-481): imbalance
of the top 10 levels; below the threshold return 0, otherwise
`mid × imbalanceRatio × adjustmentFactor`. -/
def calculateImbalanceAdjustment (spread : SpreadConfig) (orderBook : OrderBook) : ℚ :=
  let bidVolume := ((orderBook.bids.take 10).map (fun l => l.2)).sum
  let askVolume := ((orderBook.asks.take 10).map (fun l => l.2)).sum
  let totalVolume := bidVolume + askVolume
  let imbalanceRatio := if totalVolume > 0 then (bidVolume - askVolume) / totalVolume else 0
  if |imbalanceRatio| < spread.orderBookImbalanceAdjustment.threshold then 0
  else
    let midPrice := ((orderBook.bids.headD (0, 0)).1 + (orderBook.asks.headD (0, 0)).1) / 2
    midPrice * imbalanceRatio * spread.orderBookImbalanceAdjustment.adjustmentFactor

/-- `MarketMaker.calculateOptimalPrices` (part_007:301-351): mid price from
the best bid/ask, spread tier by short-term volatility against the two
thresholds, half-spread `mid × tier% / 2`, optional imbalance adjustment,
bid rounded down and ask rounded up to the price increment. -/
def calculateOptimalPrices (spread : SpreadConfig) (orders : OrdersConfig)
    (orderBook : OrderBook) (volatility : Option VolatilityMetrics) : ℚ × ℚ :=
  let bestBid := ((orderBook.bids.head?).map (fun l => l.1)).getD 0
  let bestAsk := ((orderBook.asks.head?).map (fun l => l.1)).getD 0
  let midPrice := (bestBid + bestAsk) / 2
  let spreadTier :=
    match volatility with
    | none => spread.baseTiers.tier1
    | some v =>
      if v.short > spread.thresholds.high then spread.baseTiers.tier3
      else if v.short > spread.thresholds.medium then spread.baseTiers.tier2
      else spread.baseTiers.tier1
  let spreadPercentage := spreadTier / 100
  let halfSpread := midPrice * spreadPercentage / 2
  let imbalanceAdjustment :=
    if spread.orderBookImbalanceAdjustment.enable then
      calculateImbalanceAdjustment spread orderBook
    else 0
  let bidPrice := midPrice - halfSpread - imbalanceAdjustment
  let askPrice := midPrice + halfSpread + imbalanceAdjustment
  (Bot.floorToIncrement orders.priceIncrement bidPrice,
   Bot.ceilToIncrement orders.priceIncrement askPrice)

/-- `MarketMaker.calculateBaseOrderSize` (part_007:428-447): 0.1% of the
24h volume, clamped to `[minOrderSize, maxOrderSize]`; the minimum when no
market data is known. -/
def calculateBaseOrderSize (orders : OrdersConfig) (market : Option MarketData) : ℚ :=
  match market with
  | none => orders.minOrderSize
  | some m =>
    let baseSize := m.volume24h * (1 / 1000)
    max orders.minOrderSize (min orders.maxOrderSize baseSize)

/-- `MarketMaker.calculateOrderSizes` (part_007:358-420): inventory skew
`clamp(positionSize / (baseOrderSize × maxImbalance), −1, 1)`, the skew
branches of the source, then clamp to `[min, max]` and round down to the
size increment. -/
def calculateOrderSizes (orders : OrdersConfig) (inventory : InventoryConfig)
    (positionSize : ℚ) (market : Option MarketData) : ℚ × ℚ :=
  let baseOrderSize := calculateBaseOrderSize orders market
  let targetRatio := inventory.targetRatio
  let maxImbalance := inventory.maxImbalance
  let inventorySkew :=
    if positionSize ≠ 0 then
      max (-1) (min 1 (positionSize / (baseOrderSize * maxImbalance)))
    else 0
  let inventoryAdjustmentFactor := 1 - |inventorySkew|
  let bidSize := baseOrderSize
  let askSize := baseOrderSize
  let (bidSize, askSize) :=
    if inventorySkew > 0 then
      (if inventory.rebalanceStrategy = "aggressive" then
        baseOrderSize * inventoryAdjustmentFactor
      else bidSize,
       baseOrderSize * (2 - targetRatio - inventorySkew * (1 - targetRatio)))
    else if inventorySkew < 0 then
      (baseOrderSize * (1 + targetRatio + inventorySkew * targetRatio),
       if inventory.rebalanceStrategy = "aggressive" then
        baseOrderSize * inventoryAdjustmentFactor
       else askSize)
    else (bidSize, askSize)
  let bidSize := max orders.minOrderSize (min orders.maxOrderSize bidSize)
  let askSize := max orders.minOrderSize (min orders.maxOrderSize askSize)
  (Bot.floorToIncrement orders.orderSizeIncrement bidSize,
   Bot.floorToIncrement orders.orderSizeIncrement askSize)

/-- `MarketMaker.placeLayeredOrders` (part_007:625-661): `levels` extra
orders per side at widening offsets `basePrice × spreadMultiplier × i / 100`
and `Math.floor`-ed sizes `baseSize × sizeMultiplier^i`, each placed only if
it clears the minimum order size. -/
def placeLayeredOrders (orders : OrdersConfig)
    (baseBidPrice baseAskPrice baseBidSize baseAskSize : ℚ) : List Submission :=
  let bidLayers := (List.range orders.layering.levels).filterMap fun j =>
    let i : Nat := j + 1
    let priceDelta := baseBidPrice * orders.layering.spreadMultiplier * (i : ℚ) / 100
    let layerPrice := Bot.floorToIncrement orders.priceIncrement (baseBidPrice - priceDelta)
    let layerSize : ℚ := (⌊baseBidSize * orders.layering.sizeMultiplier ^ i⌋ : ℤ)
    if layerSize ≥ orders.minOrderSize then some ⟨.buy, layerPrice, layerSize⟩ else none
  let askLayers := (List.range orders.layering.levels).filterMap fun j =>
    let i : Nat := j + 1
    let priceDelta := baseAskPrice * orders.layering.spreadMultiplier * (i : ℚ) / 100
    let layerPrice := Bot.ceilToIncrement orders.priceIncrement (baseAskPrice + priceDelta)
    let layerSize : ℚ := (⌊baseAskSize * orders.layering.sizeMultiplier ^ i⌋ : ℤ)
    if layerSize ≥ orders.minOrderSize then some ⟨.sell, layerPrice, layerSize⟩ else none
  bidLayers ++ askLayers

/-- `MarketMaker.refreshOrdersForSymbol` (part_007:260-294), as the list of
order submissions of one refresh pass: nothing when order book or market
data is missing; otherwise the main bid/ask (each only if its size clears
the minimum) followed by the layered orders when layering is enabled. -/
def refreshOrdersForSymbol (spread : SpreadConfig) (orders : OrdersConfig)
    (inventory : InventoryConfig) (orderBook : Option OrderBook)
    (market : Option MarketData) (volatility : Option VolatilityMetrics)
    (positionSize : ℚ) : List Submission :=
  match orderBook, market with
  | some ob, some mk =>
    let prices := calculateOptimalPrices spread orders ob volatility
    let sizes := calculateOrderSizes orders inventory positionSize (some mk)
    (if sizes.1 ≥ orders.minOrderSize then [⟨.buy, prices.1, sizes.1⟩] else []) ++
    (if sizes.2 ≥ orders.minOrderSize then [⟨.sell, prices.2, sizes.2⟩] else []) ++
    (if orders.layering.enable then
      placeLayeredOrders orders prices.1 prices.2 sizes.1 sizes.2
    else [])
  | _, _ => []

/-- Square of `MarketMaker.calculateVolatility` (part_007:581-617).  The
source filters the history to `timestamp ≥ startTime`, computes the
standard deviation of per-tick returns and returns
`stdDev * √525600 * 100` (a constant annualization assuming one point per
minute); this definition is the exact radicand, so the returned volatility
is `Real.sqrt` of it. -/
def calculateVolatilitySq (historicalPrices : List (Nat × ℚ)) (startTime : Nat) : ℚ :=
  if historicalPrices.length < 2 then 0
  else
    let periodHistory := historicalPrices.filter (fun q => q.1 ≥ startTime)
    if periodHistory.length < 2 then 0
    else
      let returns := Volatility.tickReturns (periodHistory.map (fun q => q.2))
      Volatility.listVariance returns * 525600 * 10000

end MarketMaker

namespace Analytics

/-- The slice of `Order` read by `updateWinLossStatistics`: a filled order
with its average fill price and filled size. -/
structure FilledOrder where
  id : String
  clientOrderId : Option String
  symbol : String
  side : MarketMaker.OrderSide
  timestamp : Nat
  avgFillPrice : ℚ
  filledSize : ℚ

/-- The base correlation id of an order:
`(order.clientOrderId || order.id).split("-")[0]` (analytics.ts:342-343). -/
def baseId (o : FilledOrder) : String :=
  ((o.clientOrderId.getD o.id).splitOn "-").headD ""

/-- Grouping of `updateWinLossStatistics` (analytics.ts:338-350): orders
sharing a base correlation id are collected, in insertion order, into one
group per id. -/
def groupOrders (orders : List FilledOrder) : List (String × List FilledOrder) :=
  orders.foldl
    (fun groups o =>
      match Security.mapGet groups (baseId o) with
      | some l => Security.mapSet groups (baseId o) (l ++ [o])
      | none => groups ++ [(baseId o, [o])])
    []

/-- The per-group PnL loop of `updateWinLossStatistics` (analytics.ts:368-376):
subtract `avgFillPrice × filledSize` for buys, add it for sells.  (The
source first sorts the group by timestamp; the sum is unchanged by order,
so the sort is not modelled.) -/
def groupPnl (orders : List FilledOrder) : ℚ :=
  orders.foldl
    (fun pnl o =>
      if o.side = .buy then pnl - o.avgFillPrice * o.filledSize
      else pnl + o.avgFillPrice * o.filledSize)
    0

/-- The win/loss accumulators of `updateWinLossStatistics`
(analytics.ts:352-385). -/
structure WinLossTotals where
  winCount : Nat
  lossCount : Nat
  totalProfit : ℚ
  totalLoss : ℚ
deriving DecidableEq

/-- The group loop of `updateWinLossStatistics` (analytics.ts:358-385):
groups with fewer than two orders are skipped; a positive group PnL adds to
the profit total, a negative one adds its absolute value to the loss
total. -/
def winLossTotals (groups : List (List FilledOrder)) : WinLossTotals :=
  groups.foldl
    (fun t g =>
      if g.length < 2 then t
      else
        let pnl := groupPnl g
        if pnl > 0 then
          { t with winCount := t.winCount + 1, totalProfit := t.totalProfit + pnl }
        else if pnl < 0 then
          { t with lossCount := t.lossCount + 1, totalLoss := t.totalLoss + |pnl| }
        else t)
    ⟨0, 0, 0, 0⟩

/-- The `profitFactor` metric: a finite rational, or the IEEE
`Number.POSITIVE_INFINITY` written into it by analytics.ts:405. -/
inductive ProfitFactor
  | val (q : ℚ)
  | posInf
deriving DecidableEq

/-- The profit-factor update of `updateWinLossStatistics`
(analytics.ts:402-406): `totalProfit / totalLoss` when there are losses,
`+∞` when there are none but there is profit, otherwise the metric is left
unchanged. -/
def updateProfitFactor (old : ProfitFactor) (totalProfit totalLoss : ℚ) :
    ProfitFactor :=
  if totalLoss > 0 then .val (totalProfit / totalLoss)
  else if totalProfit > 0 then .posInf
  else old

/-- `PerformanceAnalytics.updateWinLossStatistics` (analytics.ts:324-407),
restricted to the profit-factor metric: filter the filled orders to the
symbol, group them by base correlation id, total the group PnLs and update
the profit factor. -/
def updateWinLossStatistics (filledOrders : List FilledOrder) (symbol : String)
    (old : ProfitFactor) : ProfitFactor :=
  let symbolOrders := filledOrders.filter (fun o => o.symbol = symbol)
  let groups := groupOrders symbolOrders
  let t := winLossTotals (groups.map (fun p => p.2))
  updateProfitFactor old t.totalProfit t.totalLoss

end Analytics

namespace Security

lemma any_key_iff {α : Type} (m : List (String × α)) (k : String) :
    (m.any (fun p => p.1 = k)) = true ↔ k ∈ m.map Prod.fst := by
  constructor
  · intro h
    rcases List.any_eq_true.mp h with ⟨p, hp, hpk⟩
    exact List.mem_map.mpr ⟨p, hp, of_decide_eq_true hpk⟩
  · intro h
    rcases List.mem_map.mp h with ⟨p, hp, hpk⟩
    exact List.any_eq_true.mpr ⟨p, hp, decide_eq_true hpk⟩

lemma find?_key_eq_none {α : Type} (m : List (String × α)) (k : String)
    (h : k ∉ m.map Prod.fst) :
    m.find? (fun p => p.1 = k) = none := by
  rw [List.find?_eq_none]
  intro q hq
  simp only [decide_eq_true_eq]
  intro hqk
  exact h (List.mem_map.mpr ⟨q, hq, hqk⟩)

lemma find?_append_left_none {α : Type} {p : α → Bool} (l₁ l₂ : List α)
    (h : ∀ x ∈ l₁, ¬ p x) :
    (l₁ ++ l₂).find? p = l₂.find? p := by
  induction l₁ with
  | nil => simp
  | cons a t ih =>
    rw [List.cons_append, List.find?_cons_of_neg _ (h a (List.mem_cons_self a t))]
    exact ih (fun x hx => h x (List.mem_cons_of_mem a hx))

lemma find?_replace_of_mem {α : Type} (m : List (String × α)) (k : String) (v : α)
    (h : k ∈ m.map Prod.fst) :
    (m.map (fun p => if p.1 = k then (k, v) else p)).find? (fun p => p.1 = k) =
      some (k, v) := by
  induction m with
  | nil => simp at h
  | cons p t ih =>
    by_cases hp : p.1 = k
    · rw [List.map_cons, if_pos hp, List.find?_cons_of_pos]
      simp
    · rw [List.map_cons, if_neg hp, List.find?_cons_of_neg _ (by simp [hp])]
      apply ih
      rcases List.mem_map.mp h with ⟨q, hq, hqk⟩
      rcases List.mem_cons.mp hq with rfl | hqt
      · exact absurd hqk hp
      · exact List.mem_map.mpr ⟨q, hqt, hqk⟩

lemma mapSet_of_not_mem {α : Type} (m : List (String × α)) (k : String) (v : α)
    (h : k ∉ m.map Prod.fst) :
    mapSet m k v = m ++ [(k, v)] := by
  unfold mapSet
  rw [if_neg]
  intro hany
  exact h ((any_key_iff m k).mp hany)

lemma mapGet_mapSet_self {α : Type} (m : List (String × α)) (k : String) (v : α) :
    mapGet (mapSet m k v) k = some v := by
  by_cases h : k ∈ m.map Prod.fst
  · unfold mapSet mapGet
    rw [if_pos ((any_key_iff m k).mpr h), find?_replace_of_mem m k v h]
    rfl
  · rw [mapSet_of_not_mem m k v h]
    unfold mapGet
    rw [find?_append_left_none]
    · simp [List.find?]
    · intro q hq
      simp only [decide_eq_true_eq]
      intro hqk
      exact h (List.mem_map.mpr ⟨q, hq, hqk⟩)

lemma keys_replace {α : Type} (m : List (String × α)) (k : String) (v : α) :
    (m.map (fun p => if p.1 = k then (k, v) else p)).map Prod.fst =
      m.map Prod.fst := by
  rw [List.map_map]
  apply List.map_congr_left
  intro q _
  by_cases hq1 : q.1 = k <;> simp [hq1]

lemma keys_mapSet_of_mem {α : Type} (m : List (String × α)) (k : String) (v : α)
    (h : k ∈ m.map Prod.fst) :
    (mapSet m k v).map Prod.fst = m.map Prod.fst := by
  unfold mapSet
  rw [if_pos ((any_key_iff m k).mpr h)]
  exact keys_replace m k v

lemma length_mapSet_of_mem {α : Type} (m : List (String × α)) (k : String) (v : α)
    (h : k ∈ m.map Prod.fst) :
    (mapSet m k v).length = m.length := by
  unfold mapSet
  rw [if_pos ((any_key_iff m k).mpr h)]
  simp

lemma mapGet_eq_none_of_not_mem {α : Type} (m : List (String × α)) (k : String)
    (h : k ∉ m.map Prod.fst) :
    mapGet m k = none := by
  unfold mapGet
  rw [find?_key_eq_none m k h]
  rfl

lemma mapGet_append_right {α : Type} (m₁ m₂ : List (String × α)) (k : String)
    (h : k ∉ m₁.map Prod.fst) :
    mapGet (m₁ ++ m₂) k = mapGet m₂ k := by
  unfold mapGet
  rw [find?_append_left_none]
  intro q hq
  simp only [decide_eq_true_eq]
  intro hqk
  exact h (List.mem_map.mpr ⟨q, hq, hqk⟩)

lemma mem_keys_of_mapGet_some {α : Type} (m : List (String × α)) (k : String)
    (v : α) (h : mapGet m k = some v) : k ∈ m.map Prod.fst := by
  by_contra hn
  rw [mapGet_eq_none_of_not_mem m k hn] at h
  exact Option.noConfusion h

end Security

section Claims

open Security RiskManager MarketMaker Analytics

/-- **C1.**  The claim says `verifyAuditLog` returns true for an unmodified
chain of arbitrary length ≥ 1.  The code disagrees: `logToAudit` never
stores a `previousHash` field inside `details`, yet `verifyAuditLog`
compares `details.previousHash` of each entry after the first against the
previous entry's hash, so every untampered chain of length ≥ 2 is rejected.
This theorem exhibits the failure: an audit log built only by two
`logToAudit` appends fails verification, while the one-entry log passes. -/
theorem verifyAuditLog_rejects_untampered_two_entry_chain :
    Security.verifyAuditLog
      (Security.logToAudit
        (Security.logToAudit [] "order_activity" ⟨"orderId:1", none⟩ 1)
        "position_update" ⟨"symbol:BTC", none⟩ 2) = false ∧
    Security.verifyAuditLog
      (Security.logToAudit [] "order_activity" ⟨"orderId:1", none⟩ 1) = true := by
  exact ⟨by decide, by decide⟩

lemma toFixed2_grid (x : ℚ) : ∃ k : ℤ, Bot.toFixed2 x = k / 100 :=
  ⟨⌊x * 100 + 1/2⌋, rfl⟩

lemma le_toFixed2_of_lt (k : ℤ) (x : ℚ) (h : (k : ℚ) / 100 < x) :
    (k : ℚ) / 100 ≤ Bot.toFixed2 x := by
  unfold Bot.toFixed2
  have hk : (k : ℚ) ≤ (⌊x * 100 + 1/2⌋ : ℤ) := by
    have hx : (k : ℚ) < x * 100 := by
      have := (div_lt_iff₀ (by norm_num : (0:ℚ) < 100)).mp h
      linarith
    exact_mod_cast Int.le_floor.mpr (by linarith)
  have hk' : (k : ℚ) ≤ ((⌊x * 100 + 1/2⌋ : ℤ) : ℚ) := by exact_mod_cast hk
  linarith

lemma toFixed2_le_of_lt (k : ℤ) (x : ℚ) (h : x < (k : ℚ) / 100) :
    Bot.toFixed2 x ≤ (k : ℚ) / 100 := by
  unfold Bot.toFixed2
  have hx : x * 100 < (k : ℚ) := by
    have := (lt_div_iff₀ (by norm_num : (0:ℚ) < 100)).mp h
    linarith
  have hk : (⌊x * 100 + 1/2⌋ : ℤ) ≤ k := by
    have : x * 100 + 1/2 < (k : ℚ) + 1 := by linarith
    exact Int.lt_add_one_iff.mp (Int.floor_lt.mpr (by push_cast; linarith))
  have hk' : ((⌊x * 100 + 1/2⌋ : ℤ) : ℚ) ≤ (k : ℚ) := by exact_mod_cast hk
  linarith

lemma trailing_step_mono_long (trailingPercentage positionSize s p : ℚ)
    (hpos : 0 < positionSize) (hgrid : ∃ k : ℤ, s = k / 100) :
    s ≤ (RiskManager.updateTrailingStopLossForPosition trailingPercentage
        positionSize s p).1 ∧
    ∃ k : ℤ, (RiskManager.updateTrailingStopLossForPosition trailingPercentage
        positionSize s p).1 = k / 100 := by
  obtain ⟨k, rfl⟩ := hgrid
  unfold RiskManager.updateTrailingStopLossForPosition
  rw [if_pos (by exact hpos)]
  by_cases hc : p - p * (trailingPercentage / 100) > (k : ℚ) / 100
  · rw [if_pos hc]
    exact ⟨le_toFixed2_of_lt k _ hc, toFixed2_grid _⟩
  · rw [if_neg hc]
    exact ⟨le_refl _, ⟨k, rfl⟩⟩

lemma trailStopOverTicks_mono_long (trailingPercentage positionSize : ℚ)
    (hpos : 0 < positionSize) :
    ∀ (prices : List ℚ) (s : ℚ), (∃ k : ℤ, s = k / 100) →
      s ≤ RiskManager.trailStopOverTicks trailingPercentage positionSize s prices := by
  intro prices
  induction prices with
  | nil => intro s _; exact le_refl s
  | cons p ps ih =>
    intro s hgrid
    obtain ⟨h1, h2⟩ := trailing_step_mono_long trailingPercentage positionSize s p hpos hgrid
    exact le_trans h1 (ih _ h2)

/-- **C4.**  Trailing stop-loss only ever tightens.  For a long position the
tracked stop order's price is non-decreasing under every tick (hence across
any sequence of ticks) and is replaced exactly when the candidate
`currentPrice × (1 − trailingPct)` is strictly above the current stop; an
unfavorable tick leaves the stop untouched.  For a short position the stop
is replaced exactly when the candidate `currentPrice × (1 + trailingPct)` is
strictly below the current stop, and never rises.  The grid hypothesis — the
tracked stop price is a multiple of 1/100 — is an invariant of the code:
both `setupStopLoss` and the trailing update round placed stops with
`toFixed(2)`. -/
theorem trailing_stop_only_tightens (trailingPercentage positionSize
    stopOrderPrice currentPrice : ℚ)
    (hgrid : ∃ k : ℤ, stopOrderPrice = k / 100) :
    (0 < positionSize →
      stopOrderPrice ≤ (RiskManager.updateTrailingStopLossForPosition
        trailingPercentage positionSize stopOrderPrice currentPrice).1 ∧
      ((RiskManager.updateTrailingStopLossForPosition trailingPercentage
          positionSize stopOrderPrice currentPrice).2 = true ↔
        stopOrderPrice < currentPrice * (1 - trailingPercentage / 100)) ∧
      (currentPrice * (1 - trailingPercentage / 100) ≤ stopOrderPrice →
        RiskManager.updateTrailingStopLossForPosition trailingPercentage
          positionSize stopOrderPrice currentPrice = (stopOrderPrice, false)) ∧
      (∀ prices : List ℚ, stopOrderPrice ≤
        RiskManager.trailStopOverTicks trailingPercentage positionSize
          stopOrderPrice prices)) ∧
    (positionSize < 0 →
      (RiskManager.updateTrailingStopLossForPosition trailingPercentage
        positionSize stopOrderPrice currentPrice).1 ≤ stopOrderPrice ∧
      ((RiskManager.updateTrailingStopLossForPosition trailingPercentage
          positionSize stopOrderPrice currentPrice).2 = true ↔
        currentPrice * (1 + trailingPercentage / 100) < stopOrderPrice) ∧
      (stopOrderPrice ≤ currentPrice * (1 + trailingPercentage / 100) →
        RiskManager.updateTrailingStopLossForPosition trailingPercentage
          positionSize stopOrderPrice currentPrice = (stopOrderPrice, false))) := by
  obtain ⟨k, hk⟩ := hgrid
  constructor
  · intro hpos
    have hcand : currentPrice - currentPrice * (trailingPercentage / 100) =
        currentPrice * (1 - trailingPercentage / 100) := by ring
    refine ⟨(trailing_step_mono_long _ _ _ _ hpos ⟨k, hk⟩).1, ?_, ?_, ?_⟩
    · unfold RiskManager.updateTrailingStopLossForPosition
      rw [if_pos (by exact hpos)]
      by_cases hc : currentPrice - currentPrice * (trailingPercentage / 100) >
          stopOrderPrice
      · rw [if_pos hc]
        simp only [true_iff]
        rw [← hcand]
        exact hc
      · rw [if_neg hc]
        simp only [Bool.false_eq_true, false_iff, not_lt, ← hcand]
        exact le_of_not_lt hc
    · intro hunfav
      unfold RiskManager.updateTrailingStopLossForPosition
      rw [if_pos (by exact hpos), if_neg (by rw [hcand]; exact not_lt.mpr hunfav)]
    · intro prices
      exact trailStopOverTicks_mono_long _ _ hpos prices _ ⟨k, hk⟩
  · intro hneg
    have hnpos : ¬ (positionSize > 0) := not_lt.mpr (le_of_lt hneg)
    have hcand : currentPrice + currentPrice * (trailingPercentage / 100) =
        currentPrice * (1 + trailingPercentage / 100) := by ring
    unfold RiskManager.updateTrailingStopLossForPosition
    rw [if_neg hnpos]
    by_cases hc : currentPrice + currentPrice * (trailingPercentage / 100) <
        stopOrderPrice
    · rw [if_pos hc]
      refine ⟨?_, ?_, ?_⟩
      · rw [hk]
        exact toFixed2_le_of_lt k _ (by rw [← hk]; exact hc)
      · simp only [true_iff]
        rw [← hcand]
        exact hc
      · intro hunfav
        exact absurd hc (not_lt.mpr (by rw [hcand]; exact hunfav))
    · rw [if_neg hc]
      refine ⟨le_refl _, ?_, fun _ => rfl⟩
      simp only [Bool.false_eq_true, false_iff, not_lt, ← hcand]
      exact le_of_not_lt hc

/-- Witness for `trailing_stop_only_tightens`: a long position with stop
100.00 and trailing 1% on a tick to 102 moves the stop up to 100.98. -/
theorem trailing_stop_only_tightens_witness :
    (100 : ℚ) ≤ (RiskManager.updateTrailingStopLossForPosition 1 5 100 102).1 ∧
    (RiskManager.updateTrailingStopLossForPosition 1 5 100 102).1 = 10098 / 100 := by
  refine ⟨((trailing_stop_only_tightens 1 5 100 102 ⟨10000, by norm_num⟩).1
    (by norm_num)).1, by
      norm_num [RiskManager.updateTrailingStopLossForPosition, Bot.toFixed2]⟩

end Claims

lemma signTransaction_rejects_unauthorized (cfg : Security.SecurityConfig)
    (walletAddress : String) (st : Security.SecurityState) (id s : String)
    (now : Nat) (tx : Security.PendingTransaction)
    (htx : Security.mapGet st.pendingTransactions id = some tx)
    (hp : tx.status = .pending)
    (hbad : ¬ (s ∈ cfg.multiSig.authorizedAddresses ∨ s = walletAddress)) :
    ∃ msg, Security.signTransaction cfg walletAddress st id s now = .error msg := by
  refine ⟨"Signer " ++ s ++ " not authorized", ?_⟩
  simp only [Security.signTransaction, htx]
  rw [if_neg (by simp [hp]), if_pos hbad]

lemma signTransaction_accumulates (cfg : Security.SecurityConfig)
    (walletAddress : String) (st : Security.SecurityState) (id s : String)
    (now : Nat) (tx : Security.PendingTransaction)
    (htx : Security.mapGet st.pendingTransactions id = some tx)
    (hp : tx.status = .pending)
    (hauth : s ∈ cfg.multiSig.authorizedAddresses ∨ s = walletAddress)
    (hnot : ¬ (Security.mapSet tx.signatures s
        (Security.signatureFor id s now)).length ≥
        cfg.multiSig.requiredSignatures) :
    ∃ st1, Security.signTransaction cfg walletAddress st id s now = .ok (st1, false) ∧
      st1.pendingTransactions = Security.mapSet st.pendingTransactions id
        { tx with signatures := Security.mapSet tx.signatures s (Security.signatureFor id s now) } := by
  simp only [Security.signTransaction, htx]
  rw [if_neg (by simp [hp]), if_neg (not_not_intro hauth), if_neg hnot]
  exact ⟨_, rfl, rfl⟩

lemma signTransaction_completes (cfg : Security.SecurityConfig)
    (walletAddress : String) (st : Security.SecurityState) (id s : String)
    (now : Nat) (tx : Security.PendingTransaction)
    (htx : Security.mapGet st.pendingTransactions id = some tx)
    (hp : tx.status = .pending)
    (hauth : s ∈ cfg.multiSig.authorizedAddresses ∨ s = walletAddress)
    (hready : (Security.mapSet tx.signatures s
        (Security.signatureFor id s now)).length ≥
        cfg.multiSig.requiredSignatures) :
    ∃ st1, Security.signTransaction cfg walletAddress st id s now = .ok (st1, true) ∧
      Security.mapGet st1.pendingTransactions id = some
        { tx with
          signatures := Security.mapSet tx.signatures s (Security.signatureFor id s now),
          status := .executed } := by
  simp only [Security.signTransaction, htx]
  rw [if_neg (by simp [hp]), if_neg (not_not_intro hauth), if_pos hready]
  refine ⟨_, rfl, ?_⟩
  simp [Security.executeTransaction, Security.mapGet_mapSet_self]

/-- **C10.**  Signatures are stored in a `Map` keyed by signer address, so a
repeated signature from an identity that has already signed leaves the
signature count and the set of signer addresses unchanged, and the
`isReady` outcome still compares the unchanged count of distinct signers
against `requiredSignatures`: reaching the threshold requires that many
distinct authorized identities. -/
theorem duplicate_signature_does_not_increase_count
    (cfg : Security.SecurityConfig) (walletAddress : String)
    (st : Security.SecurityState) (id s : String) (now : Nat)
    (tx : Security.PendingTransaction)
    (htx : Security.mapGet st.pendingTransactions id = some tx)
    (hpending : tx.status = .pending)
    (hauth : s ∈ cfg.multiSig.authorizedAddresses ∨ s = walletAddress)
    (hdup : s ∈ tx.signatures.map Prod.fst) :
    ∃ st1 r, Security.signTransaction cfg walletAddress st id s now = .ok (st1, r) ∧
      ∃ tx1, Security.mapGet st1.pendingTransactions id = some tx1 ∧
        tx1.signatures.length = tx.signatures.length ∧
        tx1.signatures.map Prod.fst = tx.signatures.map Prod.fst ∧
        (r = true ↔ tx.signatures.length ≥ cfg.multiSig.requiredSignatures) := by
  set sig := Security.signatureFor id s now with hsig
  have hlen : (Security.mapSet tx.signatures s sig).length = tx.signatures.length :=
    Security.length_mapSet_of_mem _ _ _ hdup
  have hkeys : (Security.mapSet tx.signatures s sig).map Prod.fst =
      tx.signatures.map Prod.fst :=
    Security.keys_mapSet_of_mem _ _ _ hdup
  by_cases hready : (Security.mapSet tx.signatures s sig).length ≥
      cfg.multiSig.requiredSignatures
  · obtain ⟨st1, heq, hget⟩ := signTransaction_completes cfg walletAddress st id s
      now tx htx hpending hauth hready
    refine ⟨st1, true, heq, ?_⟩
    refine ⟨{ tx with signatures := Security.mapSet tx.signatures s sig, status := .executed }, hget, ?_, ?_, ?_⟩
    · exact hlen
    · exact hkeys
    · simp only [true_iff]
      rw [← hlen]
      exact hready
  · obtain ⟨st1, heq, hpend⟩ := signTransaction_accumulates cfg walletAddress st id
      s now tx htx hpending hauth hready
    refine ⟨st1, false, heq, ?_⟩
    refine ⟨{ tx with signatures := Security.mapSet tx.signatures s sig }, ?_, ?_, ?_, ?_⟩
    · rw [hpend]
      exact Security.mapGet_mapSet_self _ _ _
    · exact hlen
    · exact hkeys
    · simp only [Bool.false_eq_true, false_iff]
      rw [← hlen]
      exact hready

/-- Witness for `duplicate_signature_does_not_increase_count`: a pending
transaction already signed by `"0xbot"` is re-signed by `"0xbot"`; the
signature count stays 1 and the call reports not-ready under a 2-signature
requirement. -/
theorem duplicate_signature_does_not_increase_count_witness :
    ∃ st1 r,
      Security.signTransaction
        ⟨⟨true, 2, ["0xbot", "0xa"]⟩, ⟨1000, .low⟩, ⟨10000, .medium⟩, ⟨100000, .high⟩⟩
        "0xbot"
        ⟨[("tx1", ⟨"tx1", "order", "d", 5000, 0, [("0xbot", "s0")], .pending⟩)], [], []⟩
        "tx1" "0xbot" 7 = .ok (st1, r) ∧
      ∃ tx1, Security.mapGet st1.pendingTransactions "tx1" = some tx1 ∧
        tx1.signatures.length = 1 := by
  obtain ⟨st1, r, heq, tx1, hget, hlen, -, -⟩ :=
    duplicate_signature_does_not_increase_count
      ⟨⟨true, 2, ["0xbot", "0xa"]⟩, ⟨1000, .low⟩, ⟨10000, .medium⟩, ⟨100000, .high⟩⟩
      "0xbot"
      ⟨[("tx1", ⟨"tx1", "order", "d", 5000, 0, [("0xbot", "s0")], .pending⟩)], [], []⟩
      "tx1" "0xbot" 7
      ⟨"tx1", "order", "d", 5000, 0, [("0xbot", "s0")], .pending⟩
      (by simp [Security.mapGet, List.find?]) rfl (Or.inr rfl) (by simp)
  exact ⟨st1, r, heq, tx1, hget, hlen⟩

lemma mapGet_pendingInsert (st : Security.SecurityState)
    (id txType data : String) (value : ℚ) (now : Nat) :
    Security.mapGet (Security.pendingInsert st id txType data value now).pendingTransactions
      id = some ⟨id, txType, data, value, now, [], .pending⟩ := by
  simp only [Security.pendingInsert]
  exact Security.mapGet_mapSet_self _ _ _

/-- **C2.**  The medium-tier multi-signature flow with
`requiredSignatures = 2`.  After `secureTransaction` registers the
transaction it carries exactly the bot's automatic signature and is still
`pending`; a second signature from a distinct authorized identity flips it
to `executed` in the same call; a signature from a non-authorized identity
is rejected with a thrown error, which leaves the stored transaction — still
pending with one signature — untouched. -/
theorem medium_tier_two_signature_flow
    (cfg : Security.SecurityConfig) (walletAddress : String)
    (st : Security.SecurityState) (id txType data : String) (value : ℚ)
    (now now1 now2 : Nat) (s sBad : String) (st1 : Security.SecurityState)
    (hlevel : Security.getSecurityLevel cfg value = .medium)
    (henable : cfg.multiSig.enable = true)
    (hreq : cfg.multiSig.requiredSignatures = 2)
    (hs : s ∈ cfg.multiSig.authorizedAddresses)
    (hsw : s ≠ walletAddress)
    (hbad1 : sBad ∉ cfg.multiSig.authorizedAddresses)
    (hbad2 : sBad ≠ walletAddress)
    (hst1 : st1 = Security.secureTransaction cfg walletAddress st id txType data
      value now) :
    (∃ tx1, Security.mapGet st1.pendingTransactions id = some tx1 ∧
      tx1.status = .pending ∧ tx1.signatures.length = 1) ∧
    (∃ st2 tx2,
      Security.signTransaction cfg walletAddress st1 id s now1 = .ok (st2, true) ∧
      Security.mapGet st2.pendingTransactions id = some tx2 ∧
      tx2.status = .executed ∧ tx2.signatures.length = 2) ∧
    (∃ msg, Security.signTransaction cfg walletAddress st1 id sBad now2 =
      .error msg) := by
  have hnot1 : ¬ (Security.mapSet ([] : List (String × String)) walletAddress
      (Security.signatureFor id walletAddress now)).length ≥
      cfg.multiSig.requiredSignatures := by
    simp [Security.mapSet, hreq]
  obtain ⟨stA, heqA, hpendA⟩ := signTransaction_accumulates cfg walletAddress
    (Security.pendingInsert (Security.auditCreated st id txType now) id txType
      data value now)
    id walletAddress now ⟨id, txType, data, value, now, [], .pending⟩
    (mapGet_pendingInsert _ _ _ _ _ _) rfl (Or.inr rfl) hnot1
  have hst1A : st1 = stA := by
    rw [hst1]
    simp only [Security.secureTransaction]
    rw [hlevel, if_neg (by decide :
      ¬ (Security.SecurityLevel.medium = Security.SecurityLevel.low))]
    rw [henable, if_pos rfl, heqA]
  have htx1 : Security.mapGet st1.pendingTransactions id = some
      ⟨id, txType, data, value, now,
        [(walletAddress, Security.signatureFor id walletAddress now)], .pending⟩ := by
    rw [hst1A, hpendA]
    exact Security.mapGet_mapSet_self _ _ _
  have hwns : ¬ ((walletAddress, Security.signatureFor id walletAddress now).1 = s) := by
    simp only []
    exact fun h => hsw h.symm
  have hlen2 : (Security.mapSet
      [(walletAddress, Security.signatureFor id walletAddress now)] s
      (Security.signatureFor id s now1)).length = 2 := by
    simp [Security.mapSet, hwns]
  refine ⟨?_, ?_, ?_⟩
  · exact ⟨_, htx1, rfl, rfl⟩
  · obtain ⟨st2, heq2, hget2⟩ := signTransaction_completes cfg walletAddress st1
      id s now1
      ⟨id, txType, data, value, now,
        [(walletAddress, Security.signatureFor id walletAddress now)], .pending⟩
      htx1 rfl (Or.inl hs) (by rw [hlen2, hreq])
    refine ⟨st2, _, heq2, hget2, rfl, ?_⟩
    exact hlen2
  · exact signTransaction_rejects_unauthorized cfg walletAddress st1 id sBad now2
      ⟨id, txType, data, value, now,
        [(walletAddress, Security.signatureFor id walletAddress now)], .pending⟩
      htx1 rfl (by rintro (h | h); exacts [hbad1 h, hbad2 h])

/-- Witness for `medium_tier_two_signature_flow`: a 5000-value transaction
under tiers (1000 low, 10000 medium), required signatures 2, bot wallet
`"0xbot"`, external authorized signer `"0xa"`, rejected signer `"0xevil"`. -/
theorem medium_tier_two_signature_flow_witness :
    (∃ tx1, Security.mapGet
      (Security.secureTransaction
        ⟨⟨true, 2, ["0xa"]⟩, ⟨1000, .low⟩, ⟨10000, .medium⟩, ⟨100000, .high⟩⟩
        "0xbot" ⟨[], [], []⟩ "t1" "order" "d" 5000 3).pendingTransactions "t1" =
        some tx1 ∧ tx1.status = .pending ∧ tx1.signatures.length = 1) ∧
    (∃ st2 tx2,
      Security.signTransaction
        ⟨⟨true, 2, ["0xa"]⟩, ⟨1000, .low⟩, ⟨10000, .medium⟩, ⟨100000, .high⟩⟩
        "0xbot"
        (Security.secureTransaction
          ⟨⟨true, 2, ["0xa"]⟩, ⟨1000, .low⟩, ⟨10000, .medium⟩, ⟨100000, .high⟩⟩
          "0xbot" ⟨[], [], []⟩ "t1" "order" "d" 5000 3)
        "t1" "0xa" 4 = .ok (st2, true) ∧
      Security.mapGet st2.pendingTransactions "t1" = some tx2 ∧
      tx2.status = .executed ∧ tx2.signatures.length = 2) ∧
    (∃ msg,
      Security.signTransaction
        ⟨⟨true, 2, ["0xa"]⟩, ⟨1000, .low⟩, ⟨10000, .medium⟩, ⟨100000, .high⟩⟩
        "0xbot"
        (Security.secureTransaction
          ⟨⟨true, 2, ["0xa"]⟩, ⟨1000, .low⟩, ⟨10000, .medium⟩, ⟨100000, .high⟩⟩
          "0xbot" ⟨[], [], []⟩ "t1" "order" "d" 5000 3)
        "t1" "0xevil" 5 = .error msg) := by
  exact medium_tier_two_signature_flow
    ⟨⟨true, 2, ["0xa"]⟩, ⟨1000, .low⟩, ⟨10000, .medium⟩, ⟨100000, .high⟩⟩
    "0xbot" ⟨[], [], []⟩ "t1" "order" "d" 5000 3 4 5 "0xa" "0xevil" _
    (by decide) rfl rfl (by decide) (by decide) (by decide) (by decide) rfl

lemma floorToIncrement_multiple (inc x : ℚ) :
    ∃ k : ℤ, Bot.floorToIncrement inc x = k * inc :=
  ⟨⌊x / inc⌋, rfl⟩

lemma placeLayeredOrders_min (orders : MarketMaker.OrdersConfig)
    (baseBidPrice baseAskPrice baseBidSize baseAskSize : ℚ) :
    ∀ sub ∈ MarketMaker.placeLayeredOrders orders baseBidPrice baseAskPrice
      baseBidSize baseAskSize, orders.minOrderSize ≤ sub.size := by
  intro sub hsub
  simp only [MarketMaker.placeLayeredOrders, List.mem_append,
    List.mem_filterMap] at hsub
  rcases hsub with ⟨j, -, hj⟩ | ⟨j, -, hj⟩
  · split_ifs at hj with hc
    obtain rfl := Option.some.inj hj
    exact hc
  · split_ifs at hj with hc
    obtain rfl := Option.some.inj hj
    exact hc

/-- **C3.**  No order below the configured minimum size is ever submitted by
an order-refresh pass: the main bid and ask are gated on the rounded sizes
clearing the minimum, and every layered order is gated on its own floored
size clearing the minimum.  The computed bid/ask sizes are exact integer
multiples of the size increment (rounding down happens after the min/max
clamp and before the comparison against the minimum), and when the rounded
bid size falls below the minimum the bid is skipped entirely: with layering
off, no buy order at all is submitted. -/
theorem orders_below_minimum_never_submitted (spread : MarketMaker.SpreadConfig)
    (orders : MarketMaker.OrdersConfig) (inventory : MarketMaker.InventoryConfig)
    (orderBook : Option MarketMaker.OrderBook)
    (market : Option MarketMaker.MarketData)
    (volatility : Option MarketMaker.VolatilityMetrics) (positionSize : ℚ) :
    (∀ sub ∈ MarketMaker.refreshOrdersForSymbol spread orders inventory orderBook
      market volatility positionSize, orders.minOrderSize ≤ sub.size) ∧
    (∃ k : ℤ, (MarketMaker.calculateOrderSizes orders inventory positionSize
      market).1 = k * orders.orderSizeIncrement) ∧
    (∃ k : ℤ, (MarketMaker.calculateOrderSizes orders inventory positionSize
      market).2 = k * orders.orderSizeIncrement) ∧
    (orders.layering.enable = false →
      (MarketMaker.calculateOrderSizes orders inventory positionSize market).1 <
        orders.minOrderSize →
      ∀ sub ∈ MarketMaker.refreshOrdersForSymbol spread orders inventory orderBook
        market volatility positionSize, sub.side ≠ .buy) := by
  refine ⟨?_, ⟨_, rfl⟩, ⟨_, rfl⟩, ?_⟩
  · intro sub hsub
    cases orderBook with
    | none => simp [MarketMaker.refreshOrdersForSymbol] at hsub
    | some ob =>
      cases market with
      | none => simp [MarketMaker.refreshOrdersForSymbol] at hsub
      | some mk =>
        simp only [MarketMaker.refreshOrdersForSymbol, List.mem_append] at hsub
        rcases hsub with (hb | ha) | hl
        · split_ifs at hb with hc
          · rcases List.mem_singleton.mp hb with rfl
            exact hc
          · exact absurd hb (List.not_mem_nil _)
        · split_ifs at ha with hc
          · rcases List.mem_singleton.mp ha with rfl
            exact hc
          · exact absurd ha (List.not_mem_nil _)
        · split_ifs at hl with hc
          · exact placeLayeredOrders_min orders _ _ _ _ sub hl
          · exact absurd hl (List.not_mem_nil _)
  · intro hlay hbelow sub hsub
    cases orderBook with
    | none => simp [MarketMaker.refreshOrdersForSymbol] at hsub
    | some ob =>
      cases market with
      | none => simp [MarketMaker.refreshOrdersForSymbol] at hsub
      | some mk =>
        simp only [MarketMaker.refreshOrdersForSymbol, List.mem_append] at hsub
        rcases hsub with (hb | ha) | hl
        · rw [if_neg (not_le.mpr hbelow)] at hb
          exact absurd hb (List.not_mem_nil _)
        · split_ifs at ha with hc
          · rcases List.mem_singleton.mp ha with rfl
            simp
          · exact absurd ha (List.not_mem_nil _)
        · rw [if_neg (by simp [hlay])] at hl
          exact absurd hl (List.not_mem_nil _)

/-- Witness for `orders_below_minimum_never_submitted`: with minimum size
1/2 and size increment 3/10, base size clamps to 1/2 and rounds down to
3/10 < 1/2, so the refresh pass submits nothing at all. -/
theorem orders_below_minimum_never_submitted_witness :
    (∀ sub ∈ MarketMaker.refreshOrdersForSymbol
      ⟨⟨1/10, 2/10, 4/10⟩, ⟨2, 5⟩, ⟨false, 3/10, 1/2⟩⟩
      ⟨1/2, 100, 3/10, 1/100, ⟨false, 0, 1, 1⟩⟩
      ⟨1/2, 2, "neutral"⟩
      (some ⟨[(100, 5)], [(102, 5)]⟩) (some ⟨100⟩) (some ⟨1, 1, 1⟩) 0,
      (1/2 : ℚ) ≤ sub.size) ∧
    ∀ sub ∈ MarketMaker.refreshOrdersForSymbol
      ⟨⟨1/10, 2/10, 4/10⟩, ⟨2, 5⟩, ⟨false, 3/10, 1/2⟩⟩
      ⟨1/2, 100, 3/10, 1/100, ⟨false, 0, 1, 1⟩⟩
      ⟨1/2, 2, "neutral"⟩
      (some ⟨[(100, 5)], [(102, 5)]⟩) (some ⟨100⟩) (some ⟨1, 1, 1⟩) 0,
      sub.side ≠ .buy := by
  refine ⟨?_, ?_⟩
  · exact (orders_below_minimum_never_submitted
      ⟨⟨1/10, 2/10, 4/10⟩, ⟨2, 5⟩, ⟨false, 3/10, 1/2⟩⟩
      ⟨1/2, 100, 3/10, 1/100, ⟨false, 0, 1, 1⟩⟩
      ⟨1/2, 2, "neutral"⟩
      (some ⟨[(100, 5)], [(102, 5)]⟩) (some ⟨100⟩) (some ⟨1, 1, 1⟩) 0).1
  · exact (orders_below_minimum_never_submitted
      ⟨⟨1/10, 2/10, 4/10⟩, ⟨2, 5⟩, ⟨false, 3/10, 1/2⟩⟩
      ⟨1/2, 100, 3/10, 1/100, ⟨false, 0, 1, 1⟩⟩
      ⟨1/2, 2, "neutral"⟩
      (some ⟨[(100, 5)], [(102, 5)]⟩) (some ⟨100⟩) (some ⟨1, 1, 1⟩) 0).2.2.2
      rfl (by norm_num [MarketMaker.calculateOrderSizes,
        MarketMaker.calculateBaseOrderSize, Bot.floorToIncrement])

/-- Spec formula (spec.md §4.2): mid price = (best bid + best ask) / 2. -/
def specMid (orderBook : MarketMaker.OrderBook) : ℚ :=
  (((orderBook.bids.head?).map (fun l => l.1)).getD 0 +
    ((orderBook.asks.head?).map (fun l => l.1)).getD 0) / 2

/-- Spec formula (spec.md §4.2): half-spread = mid × tier% / 2. -/
def specHalfSpread (orderBook : MarketMaker.OrderBook) (tierPct : ℚ) : ℚ :=
  specMid orderBook * (tierPct / 100) / 2

/-- **C5.**  With imbalance adjustment disabled and short-term volatility at
or below the medium threshold (so the tier-1 spread applies), the quoting
engine returns exactly the spec's symmetric quotes: bid = mid − half-spread
rounded down to the price increment, ask = mid + half-spread rounded up. -/
theorem quotes_bracket_mid_symmetrically (spread : MarketMaker.SpreadConfig)
    (orders : MarketMaker.OrdersConfig) (orderBook : MarketMaker.OrderBook)
    (v : MarketMaker.VolatilityMetrics)
    (hdis : spread.orderBookImbalanceAdjustment.enable = false)
    (hvol : v.short ≤ spread.thresholds.medium)
    (hthr : spread.thresholds.medium ≤ spread.thresholds.high) :
    MarketMaker.calculateOptimalPrices spread orders orderBook (some v) =
      (Bot.floorToIncrement orders.priceIncrement
        (specMid orderBook - specHalfSpread orderBook spread.baseTiers.tier1),
       Bot.ceilToIncrement orders.priceIncrement
        (specMid orderBook + specHalfSpread orderBook spread.baseTiers.tier1)) := by
  simp only [MarketMaker.calculateOptimalPrices, specMid, specHalfSpread]
  rw [if_neg (not_lt.mpr (le_trans hvol hthr)), if_neg (not_lt.mpr hvol), hdis]
  norm_num

/-- Witness for `quotes_bracket_mid_symmetrically`: best bid 100, best ask
102 (mid 101), tier-1 spread 0.1%, price increment 0.01 give bid 100.94 and
ask 101.06. -/
theorem quotes_bracket_mid_symmetrically_witness :
    MarketMaker.calculateOptimalPrices
      ⟨⟨1/10, 2/10, 4/10⟩, ⟨2, 5⟩, ⟨false, 3/10, 1/2⟩⟩
      ⟨1, 100, 1, 1/100, ⟨false, 0, 1, 1⟩⟩
      ⟨[(100, 5)], [(102, 5)]⟩ (some ⟨1, 1, 1⟩) = (10094/100, 10106/100) := by
  refine (quotes_bracket_mid_symmetrically
    ⟨⟨1/10, 2/10, 4/10⟩, ⟨2, 5⟩, ⟨false, 3/10, 1/2⟩⟩
    ⟨1, 100, 1, 1/100, ⟨false, 0, 1, 1⟩⟩
    ⟨[(100, 5)], [(102, 5)]⟩ ⟨1, 1, 1⟩ rfl (by norm_num) (by norm_num)).trans ?_
  norm_num [specMid, specHalfSpread, Bot.floorToIncrement, Bot.ceilToIncrement]
  rw [show (⌈(202101 : ℚ) / 20⌉ : ℤ) = 10106 from by
    rw [Int.ceil_eq_iff] <;> norm_num]
  norm_num

/-- **C6, counterexample.**  The claim says that past the threshold both
quotes are shifted by `mid × ratio × adjustmentFactor` in the same
direction (toward the heavier side).  The code instead subtracts the
adjustment from the bid and adds it to the ask.  With bids ten times
heavier (ratio 1/2, adjustment 101/4 = 25.25) the computed bid drops to
75.69 while the spec's same-direction shift would put it at 126.19. -/
theorem imbalance_adjustment_not_same_direction :
    MarketMaker.calculateImbalanceAdjustment
      ⟨⟨1/10, 2/10, 4/10⟩, ⟨2, 5⟩, ⟨true, 1/5, 1/2⟩⟩
      ⟨[(100, 300)], [(102, 100)]⟩ = 101/4 ∧
    MarketMaker.calculateOptimalPrices
      ⟨⟨1/10, 2/10, 4/10⟩, ⟨2, 5⟩, ⟨true, 1/5, 1/2⟩⟩
      ⟨1, 100, 1, 1/100, ⟨false, 0, 1, 1⟩⟩
      ⟨[(100, 300)], [(102, 100)]⟩ (some ⟨1, 1, 1⟩) = (7569/100, 12631/100) ∧
    Bot.floorToIncrement (1/100)
      (specMid ⟨[(100, 300)], [(102, 100)]⟩ -
        specHalfSpread ⟨[(100, 300)], [(102, 100)]⟩ (1/10) + 101/4) =
      12619/100 ∧
    ((7569 : ℚ)/100 ≠ 12619/100) := by
  have habs : |(1 : ℚ)/2| = 1/2 := abs_of_pos (by norm_num)
  refine ⟨?_, ?_, ?_, by norm_num⟩
  · norm_num [MarketMaker.calculateImbalanceAdjustment, habs]
  · norm_num [MarketMaker.calculateOptimalPrices,
      MarketMaker.calculateImbalanceAdjustment, Bot.floorToIncrement,
      Bot.ceilToIncrement, habs]
    rw [show (⌈(252601 : ℚ) / 20⌉ : ℤ) = 12631 from by
      rw [Int.ceil_eq_iff] <;> norm_num]
    norm_num
  · norm_num [specMid, specHalfSpread, Bot.floorToIncrement]


/-- **C6, amended.**  What the code actually does when imbalance adjustment
is enabled (tier-1 volatility for definiteness): the adjustment
`mid × ratio × adjustmentFactor` is subtracted from the bid quote and added
to the ask quote — for a positive ratio the pair widens around the mid
rather than shifting toward the heavier side — and below the threshold the
adjustment is exactly 0, leaving the quotes unaffected. -/
theorem imbalance_adjustment_widens_quotes (spread : MarketMaker.SpreadConfig)
    (orders : MarketMaker.OrdersConfig) (orderBook : MarketMaker.OrderBook)
    (v : MarketMaker.VolatilityMetrics)
    (hen : spread.orderBookImbalanceAdjustment.enable = true)
    (hvol : v.short ≤ spread.thresholds.medium)
    (hthr : spread.thresholds.medium ≤ spread.thresholds.high) :
    MarketMaker.calculateOptimalPrices spread orders orderBook (some v) =
      (Bot.floorToIncrement orders.priceIncrement
        (specMid orderBook - specHalfSpread orderBook spread.baseTiers.tier1 -
          MarketMaker.calculateImbalanceAdjustment spread orderBook),
       Bot.ceilToIncrement orders.priceIncrement
        (specMid orderBook + specHalfSpread orderBook spread.baseTiers.tier1 +
          MarketMaker.calculateImbalanceAdjustment spread orderBook)) ∧
    (|(((orderBook.bids.take 10).map (fun l => l.2)).sum -
        ((orderBook.asks.take 10).map (fun l => l.2)).sum) /
       (((orderBook.bids.take 10).map (fun l => l.2)).sum +
        ((orderBook.asks.take 10).map (fun l => l.2)).sum)| <
        spread.orderBookImbalanceAdjustment.threshold →
      MarketMaker.calculateImbalanceAdjustment spread orderBook = 0) := by
  constructor
  · simp only [MarketMaker.calculateOptimalPrices, specMid, specHalfSpread]
    rw [if_neg (not_lt.mpr (le_trans hvol hthr)), if_neg (not_lt.mpr hvol), hen]
    norm_num
  · intro h
    have hthr0 : 0 < spread.orderBookImbalanceAdjustment.threshold :=
      lt_of_le_of_lt (abs_nonneg _) h
    simp only [MarketMaker.calculateImbalanceAdjustment]
    by_cases htot : ((orderBook.bids.take 10).map (fun l => l.2)).sum +
        ((orderBook.asks.take 10).map (fun l => l.2)).sum > 0
    · rw [if_pos htot, if_pos h]
    · rw [if_neg htot, if_pos (by simpa using hthr0)]

/-- Witness for `imbalance_adjustment_widens_quotes` at the counterexample's
book: the enabled-path quotes equal the widened pair (75.69, 126.31). -/
theorem imbalance_adjustment_widens_quotes_witness :
    MarketMaker.calculateOptimalPrices
      ⟨⟨1/10, 2/10, 4/10⟩, ⟨2, 5⟩, ⟨true, 1/5, 1/2⟩⟩
      ⟨1, 100, 1, 1/100, ⟨false, 0, 1, 1⟩⟩
      ⟨[(100, 300)], [(102, 100)]⟩ (some ⟨1, 1, 1⟩) =
      (Bot.floorToIncrement (1/100)
        (specMid ⟨[(100, 300)], [(102, 100)]⟩ -
          specHalfSpread ⟨[(100, 300)], [(102, 100)]⟩ (1/10) -
          MarketMaker.calculateImbalanceAdjustment
            ⟨⟨1/10, 2/10, 4/10⟩, ⟨2, 5⟩, ⟨true, 1/5, 1/2⟩⟩
            ⟨[(100, 300)], [(102, 100)]⟩),
       Bot.ceilToIncrement (1/100)
        (specMid ⟨[(100, 300)], [(102, 100)]⟩ +
          specHalfSpread ⟨[(100, 300)], [(102, 100)]⟩ (1/10) +
          MarketMaker.calculateImbalanceAdjustment
            ⟨⟨1/10, 2/10, 4/10⟩, ⟨2, 5⟩, ⟨true, 1/5, 1/2⟩⟩
            ⟨[(100, 300)], [(102, 100)]⟩)) :=
  (imbalance_adjustment_widens_quotes
    ⟨⟨1/10, 2/10, 4/10⟩, ⟨2, 5⟩, ⟨true, 1/5, 1/2⟩⟩
    ⟨1, 100, 1, 1/100, ⟨false, 0, 1, 1⟩⟩
    ⟨[(100, 300)], [(102, 100)]⟩ ⟨1, 1, 1⟩ rfl (by norm_num) (by norm_num)).1

/-- **C7.**  The claim (and the code's own comments) say a positive
inventory skew shrinks the ask size below the base order size, and a
negative skew shrinks the bid size symmetrically.  The formulas do the
opposite: with base size 100, target ratio 0.5 and max imbalance 2, a
position of +100 (skew 1/2) yields ask size 125 > 100, and a position of
−100 yields bid size 125 > 100. -/
theorem positive_skew_increases_ask_size :
    MarketMaker.calculateBaseOrderSize
      ⟨1, 1000, 1, 1/100, ⟨false, 0, 1, 1⟩⟩ (some ⟨100000⟩) = 100 ∧
    MarketMaker.calculateOrderSizes
      ⟨1, 1000, 1, 1/100, ⟨false, 0, 1, 1⟩⟩ ⟨1/2, 2, "neutral"⟩ 100
      (some ⟨100000⟩) = (100, 125) ∧
    MarketMaker.calculateOrderSizes
      ⟨1, 1000, 1, 1/100, ⟨false, 0, 1, 1⟩⟩ ⟨1/2, 2, "neutral"⟩ (-100)
      (some ⟨100000⟩) = (125, 100) := by
  refine ⟨?_, ?_, ?_⟩
  · norm_num [MarketMaker.calculateBaseOrderSize]
  · norm_num [MarketMaker.calculateOrderSizes, MarketMaker.calculateBaseOrderSize,
      Bot.floorToIncrement]
    rw [if_neg (show ¬ ("neutral" = "aggressive") by decide)]
    norm_num
  · norm_num [MarketMaker.calculateOrderSizes, MarketMaker.calculateBaseOrderSize,
      Bot.floorToIncrement]
    rw [if_neg (show ¬ ("neutral" = "aggressive") by decide)]
    norm_num

/-- **C8, counterexample.**  The claim says the quoting engine's volatility
and the risk engine's circuit-breaker volatility are the same function of a
price history (stdDev of per-tick returns annualized by
`√(secondsPerYear / sampleCount)`).  They are not: the quoting engine
multiplies by the constant `√525600` (minutes per year) while the risk
engine multiplies by `√(31536000 / (n − 1))`.  On the three-point history
(100, 110, 110) the returned volatilities — `Real.sqrt` of the embedded
radicands — differ. -/
theorem volatility_annualization_differs :
    Real.sqrt (MarketMaker.calculateVolatilitySq [(0, 100), (1, 110), (2, 110)] 0) ≠
      Real.sqrt (RiskManager.calculateCircuitBreakerVolatilitySq
        [(0, 100), (1, 110), (2, 110)]) := by
  have h1 : MarketMaker.calculateVolatilitySq [(0, 100), (1, 110), (2, 110)] 0 =
      13140000 := by
    norm_num [MarketMaker.calculateVolatilitySq, Volatility.tickReturns,
      Volatility.listVariance, Volatility.listMean]
  have h2 : RiskManager.calculateCircuitBreakerVolatilitySq
      [(0, 100), (1, 110), (2, 110)] = 394200000 := by
    norm_num [RiskManager.calculateCircuitBreakerVolatilitySq,
      Volatility.tickReturns, Volatility.listVariance, Volatility.listMean]
  rw [h1, h2]
  intro h
  have ha : (0 : ℝ) ≤ ((13140000 : ℚ) : ℝ) := by norm_num
  have hb : (0 : ℝ) ≤ ((394200000 : ℚ) : ℝ) := by norm_num
  have h3 := (Real.sqrt_inj ha hb).mp h
  norm_num at h3

lemma listVariance_nonneg (l : List ℚ) : 0 ≤ Volatility.listVariance l := by
  unfold Volatility.listVariance
  apply div_nonneg
  · apply List.sum_nonneg
    intro x hx
    rcases List.mem_map.mp hx with ⟨v, -, rfl⟩
    positivity
  · positivity

/-- **C8, amended.**  Both routines compute the standard deviation of
per-tick returns, but annualize differently: the quoting engine by the
constant `√525600`, the risk engine by `√(31536000 / (n − 1))`.  On the
same price history the two returned volatilities agree if and only if the
history holds exactly 61 points (60 returns, so `31536000 / 60 = 525600`)
or the variance of the per-tick returns is 0 (zero standard deviation; in
particular any history of fewer than two points, where both routines
return 0). -/
theorem volatility_same_iff_sixty_returns_or_flat (hist : List (Nat × ℚ)) :
    (Real.sqrt (MarketMaker.calculateVolatilitySq hist 0) =
      Real.sqrt (RiskManager.calculateCircuitBreakerVolatilitySq hist)) ↔
    (hist.length = 61 ∨
      Volatility.listVariance
        (Volatility.tickReturns (hist.map (fun q => q.2))) = 0) := by
  have hfil : hist.filter (fun q => q.1 ≥ 0) = hist :=
    List.filter_eq_self.mpr (fun a _ => by simp)
  by_cases hlen : hist.length < 2
  · have h1 : MarketMaker.calculateVolatilitySq hist 0 = 0 := by
      simp only [MarketMaker.calculateVolatilitySq]
      rw [if_pos hlen]
    have h2 : RiskManager.calculateCircuitBreakerVolatilitySq hist = 0 := by
      simp only [RiskManager.calculateCircuitBreakerVolatilitySq]
      rw [if_pos hlen]
    have hV0 : Volatility.listVariance
        (Volatility.tickReturns (hist.map (fun q => q.2))) = 0 := by
      match hist, hlen with
      | [], _ => simp [Volatility.tickReturns, Volatility.listVariance,
          Volatility.listMean]
      | [a], _ => simp [Volatility.tickReturns, Volatility.listVariance,
          Volatility.listMean]
    rw [h1, h2]
    simp [hV0]
  · push_neg at hlen
    have h1 : MarketMaker.calculateVolatilitySq hist 0 =
        Volatility.listVariance
          (Volatility.tickReturns (hist.map (fun q => q.2))) * 525600 * 10000 := by
      simp only [MarketMaker.calculateVolatilitySq, hfil]
      rw [if_neg (not_lt.mpr hlen), if_neg (not_lt.mpr hlen)]
    have h2 : RiskManager.calculateCircuitBreakerVolatilitySq hist =
        Volatility.listVariance
          (Volatility.tickReturns (hist.map (fun q => q.2))) *
          ((31536000 : ℚ) / ((hist.length - 1 : ℕ) : ℚ)) * 10000 := by
      simp only [RiskManager.calculateCircuitBreakerVolatilitySq]
      rw [if_neg (not_lt.mpr hlen)]
      norm_num
    rw [h1, h2]
    set V : ℚ := Volatility.listVariance
      (Volatility.tickReturns (hist.map (fun q => q.2))) with hV
    have hVnn : 0 ≤ V := listVariance_nonneg _
    set d : ℚ := ((hist.length - 1 : ℕ) : ℚ) with hd
    have hd1 : (1 : ℚ) ≤ d := by
      rw [hd]
      exact_mod_cast Nat.one_le_iff_ne_zero.mpr (by omega)
    have hdne : d ≠ 0 := by linarith
    have q1 : (0 : ℚ) ≤ V * 525600 * 10000 := by
      apply mul_nonneg (mul_nonneg hVnn (by norm_num)) (by norm_num)
    have q2 : (0 : ℚ) ≤ V * (31536000 / d) * 10000 := by
      apply mul_nonneg (mul_nonneg hVnn (div_nonneg (by norm_num) (by linarith)))
        (by norm_num)
    rw [Real.sqrt_inj (by exact_mod_cast q1) (by exact_mod_cast q2), Rat.cast_inj]
    constructor
    · intro h
      by_cases hV0 : V = 0
      · exact Or.inr hV0
      · left
        have hcancel : V * 525600 = V * (31536000 / d) :=
          mul_right_cancel₀ (by norm_num : (10000 : ℚ) ≠ 0) h
        have hfrac : (525600 : ℚ) = 31536000 / d := mul_left_cancel₀ hV0 hcancel
        rw [eq_div_iff hdne] at hfrac
        have hd60 : d = 60 := by linarith
        have hn60 : (hist.length - 1 : ℕ) = 60 := by
          exact_mod_cast hd ▸ hd60
        omega
    · rintro (h61 | hV0)
      · have hd60 : d = 60 := by
          rw [hd, h61]
          norm_num
        rw [hd60]
        norm_num
      · rw [hV0]
        ring

lemma groupPnl_foldl (g : List Analytics.FilledOrder) : ∀ init : ℚ,
    g.foldl
      (fun pnl o =>
        if o.side = .buy then pnl - o.avgFillPrice * o.filledSize
        else pnl + o.avgFillPrice * o.filledSize)
      init =
    init +
      ((g.filter (fun o => o.side = MarketMaker.OrderSide.sell)).map
        (fun o => o.avgFillPrice * o.filledSize)).sum -
      ((g.filter (fun o => o.side = MarketMaker.OrderSide.buy)).map
        (fun o => o.avgFillPrice * o.filledSize)).sum := by
  induction g with
  | nil => intro init; simp
  | cons o t ih =>
    intro init
    cases ho : o.side <;>
      simp only [List.foldl_cons, List.filter_cons, ho, if_pos, if_neg,
        List.map_cons, List.sum_cons] <;>
      simp [ih] <;> ring

lemma winLossTotals_totalLoss_nonneg (groups : List (List Analytics.FilledOrder)) :
    0 ≤ (Analytics.winLossTotals groups).totalLoss := by
  have main : ∀ (gs : List (List Analytics.FilledOrder))
      (t : Analytics.WinLossTotals), 0 ≤ t.totalLoss →
      0 ≤ (gs.foldl
        (fun t g =>
          if g.length < 2 then t
          else
            let pnl := Analytics.groupPnl g
            if pnl > 0 then
              { t with winCount := t.winCount + 1, totalProfit := t.totalProfit + pnl }
            else if pnl < 0 then
              { t with lossCount := t.lossCount + 1, totalLoss := t.totalLoss + |pnl| }
            else t)
        t).totalLoss := by
    intro gs
    induction gs with
    | nil => intro t ht; exact ht
    | cons g tl ih =>
      intro t ht
      simp only [List.foldl_cons]
      apply ih
      split_ifs with h1 h2 h3
      · exact ht
      · exact ht
      · simpa using add_nonneg ht (abs_nonneg (Analytics.groupPnl g))
      · exact ht
  exact main groups ⟨0, 0, 0, 0⟩ le_rfl

/-- **C9.**  Each correlation group's recomputed PnL is exactly
Σ(sell `avgFillPrice × filledSize`) − Σ(buy `avgFillPrice × filledSize`),
and — starting from any finite profit-factor value, as the metric is
initialized to 0 — the updated profit factor is `+∞` exactly when the
accumulated total loss is 0 and the total profit is positive, and is
`totalProfit / totalLoss` whenever the total loss is positive. -/
theorem group_pnl_and_profit_factor (groups : List (List Analytics.FilledOrder))
    (old : Analytics.ProfitFactor) (hold : old ≠ .posInf) :
    (∀ g ∈ groups, Analytics.groupPnl g =
      ((g.filter (fun o => o.side = MarketMaker.OrderSide.sell)).map
        (fun o => o.avgFillPrice * o.filledSize)).sum -
      ((g.filter (fun o => o.side = MarketMaker.OrderSide.buy)).map
        (fun o => o.avgFillPrice * o.filledSize)).sum) ∧
    (Analytics.updateProfitFactor old (Analytics.winLossTotals groups).totalProfit
        (Analytics.winLossTotals groups).totalLoss = .posInf ↔
      ((Analytics.winLossTotals groups).totalLoss = 0 ∧
        0 < (Analytics.winLossTotals groups).totalProfit)) ∧
    (0 < (Analytics.winLossTotals groups).totalLoss →
      Analytics.updateProfitFactor old (Analytics.winLossTotals groups).totalProfit
        (Analytics.winLossTotals groups).totalLoss =
      .val ((Analytics.winLossTotals groups).totalProfit /
        (Analytics.winLossTotals groups).totalLoss)) := by
  have hL : 0 ≤ (Analytics.winLossTotals groups).totalLoss :=
    winLossTotals_totalLoss_nonneg groups
  refine ⟨?_, ?_, ?_⟩
  · intro g _
    simpa [Analytics.groupPnl] using groupPnl_foldl g 0
  · unfold Analytics.updateProfitFactor
    split_ifs with h1 h2
    · constructor
      · intro hval; exact absurd hval (by simp)
      · rintro ⟨hL0, -⟩
        rw [hL0] at h1
        exact absurd h1 (lt_irrefl 0)
    · exact ⟨fun _ => ⟨le_antisymm (not_lt.mp h1) hL, h2⟩, fun _ => rfl⟩
    · constructor
      · intro hcon; exact absurd hcon hold
      · rintro ⟨-, hP⟩; exact absurd hP h2
  · intro hLpos
    unfold Analytics.updateProfitFactor
    rw [if_pos hLpos]

/-- Witness for `group_pnl_and_profit_factor`: one correlation group with a
buy of 1 at 100 and a sell of 1 at 110 yields total profit 10, total loss
0, and a profit factor of `+∞` from the initial finite value 0. -/
theorem group_pnl_and_profit_factor_witness :
    Analytics.updateProfitFactor (.val 0)
      (Analytics.winLossTotals
        [[⟨"a", none, "S", .buy, 0, 100, 1⟩, ⟨"b", none, "S", .sell, 1, 110, 1⟩]]).totalProfit
      (Analytics.winLossTotals
        [[⟨"a", none, "S", .buy, 0, 100, 1⟩, ⟨"b", none, "S", .sell, 1, 110, 1⟩]]).totalLoss =
      .posInf :=
  ((group_pnl_and_profit_factor
    [[⟨"a", none, "S", .buy, 0, 100, 1⟩, ⟨"b", none, "S", .sell, 1, 110, 1⟩]]
    (.val 0) (by decide)).2.1).mpr
    ⟨by norm_num [Analytics.winLossTotals, Analytics.groupPnl]; decide,
     by norm_num [Analytics.winLossTotals, Analytics.groupPnl]; decide⟩
